import Mathlib

/-!
# Expense-Tracker offline sync engine: verified embedding

A shallow embedding of the data-synchronization core of the Expense-Tracker
repository (the second `DataProvider` variant in the data-context module:
the mock `cloudSyncApi`, the CRUD mutators, `updateStateAndSync`,
`processSyncQueue` and `replaceAllData`), together with theorems settling
the specification claims about it.

Conventions of the embedding:
* JavaScript arrays become `List`; `Array.prototype.findIndex` becomes
  `findIndexOpt` (returning `Option Nat` instead of `-1`);
  `dataArray[index] = payload` becomes `List.set`; `splice(index, 1)`
  becomes `List.eraseIdx`; `push` becomes append of a singleton.
* `localStorage` entries that may be absent become `Option`-valued fields;
  `getLocalData(key, fallback)` becomes `Option.getD`.
* `Date.now().toString()` becomes `genId : Nat → String` applied to an
  abstract millisecond clock value supplied as an explicit parameter.
* The asynchronous mock remote (`cloudSyncApi`) is modelled by a
  `remote : Option AppData` component of the system state; a completed
  `saveData` sets it, `fetchData` reads it.  A sync pass whose save does
  not complete is modelled by the `saveOk = false` branch of
  `processSyncQueueStep`, which applies exactly the state changes the code
  performs before the `await` of the save (only the busy flag).
-/

namespace ExpenseTracker

/-- The `Income` record (types module): id, title, amount, date. -/
structure Income where
  id : String
  title : String
  amount : Int
  date : String
deriving DecidableEq

/-- The `Expense` record (types module): id, title, amount, dateTime, segmentId. -/
structure Expense where
  id : String
  title : String
  amount : Int
  dateTime : String
  segmentId : String
deriving DecidableEq

/-- The `Segment` record: id, name, allocatedAmount, and the optional display
color the data layer assigns (`s.color || default`); `none` models a
missing/undefined color and `some ""` an empty (falsy) one. -/
structure Segment where
  id : String
  name : String
  allocatedAmount : Int
  color : Option String
deriving DecidableEq

/-- The `AppData` aggregate: the triple of the three collections. -/
structure AppData where
  incomes : List Income
  expenses : List Expense
  segments : List Segment
deriving DecidableEq

/-- The fallback snapshot, incomes, expenses and segments all empty. -/
def emptyAppData : AppData := ⟨[], [], []⟩

/-- The `SyncActionType` union: `add` | `update` | `delete`. -/
inductive SyncActionType where
  | add
  | update
  | delete
deriving DecidableEq

/-- The `DataType` union: `income` | `expense` | `segment`. -/
inductive DataType where
  | income
  | expense
  | segment
deriving DecidableEq

/-- The `payload` of a `SyncAction`: the full record for add/update, or the
bare `{ id }` object the delete mutators enqueue. -/
inductive SyncPayload where
  | inc (x : Income)
  | exp (x : Expense)
  | seg (x : Segment)
  | idOnly (id : String)
deriving DecidableEq

/-- The field `payload.id`: every payload shape carries an id field. -/
def SyncPayload.pid : SyncPayload → String
  | .inc x => x.id
  | .exp x => x.id
  | .seg x => x.id
  | .idOnly i => i

/-- The `SyncAction` record: action id, kind, entity kind, payload. -/
structure SyncAction where
  id : String
  type : SyncActionType
  dataType : DataType
  payload : SyncPayload
deriving DecidableEq

/-- Model of `Array.prototype.findIndex`, with `Option Nat` in place of `-1`. -/
def findIndexOpt {α : Type} (p : α → Bool) : List α → Option Nat
  | [] => none
  | x :: xs => if p x then some 0 else (findIndexOpt p xs).map (· + 1)

/-- Payload downcast used when pushing a payload into the incomes array. -/
def asIncome : SyncPayload → Option Income
  | .inc x => some x
  | _ => none

/-- Payload downcast used when pushing a payload into the expenses array. -/
def asExpense : SyncPayload → Option Expense
  | .exp x => some x
  | _ => none

/-- Payload downcast used when pushing a payload into the segments array. -/
def asSegment : SyncPayload → Option Segment
  | .seg x => some x
  | _ => none

/-- The per-collection body of the replay loop in `processSyncQueue`:
`add` pushes the payload; `update` does `findIndex` on `payload.id` then
in-place assignment if found, else push; `delete` does `findIndex` then
`splice(index, 1)` if found.  The producers of queue entries only ever pair
a payload with its own collection, so the downcast `asRec` succeeds on
every action the program creates; a mismatched pairing (unrepresentable in
the typed embedding, garbage in JS) is modelled as a no-op. -/
def applyOp {α : Type} (getId : α → String) (asRec : SyncPayload → Option α)
    (t : SyncActionType) (p : SyncPayload) (l : List α) : List α :=
  match t with
  | .add =>
    match asRec p with
    | some x => l ++ [x]
    | none => l
  | .update =>
    match findIndexOpt (fun it => getId it == p.pid) l, asRec p with
    | some i, some x => l.set i x
    | none, some x => l ++ [x]
    | _, none => l
  | .delete =>
    match findIndexOpt (fun it => getId it == p.pid) l with
    | some i => l.eraseIdx i
    | none => l

/-- One iteration of `queue.forEach(action => ...)` in `processSyncQueue`:
the `switch (dataType)` selects the collection, then `applyOp` runs the
add/update/delete body on it. -/
def applyAction (d : AppData) (a : SyncAction) : AppData :=
  match a.dataType with
  | .income => { d with incomes := applyOp Income.id asIncome a.type a.payload d.incomes }
  | .expense => { d with expenses := applyOp Expense.id asExpense a.type a.payload d.expenses }
  | .segment => { d with segments := applyOp Segment.id asSegment a.type a.payload d.segments }

/-- The whole replay loop: every queued action, in insertion order. -/
def processQueue (d : AppData) (q : List SyncAction) : AppData :=
  q.foldl applyAction d

/-- Model of `Date.now().toString()`: the time-based id generator. -/
def genId (now : Nat) : String := Nat.repr now

/-- The observable system state: in-memory entity store, persisted local
cache (`localData_main`, absent before first write), sync queue
(`syncQueue_main`, `[]` when absent), mock remote (`gdrive_mock_main_user`),
connectivity flag and busy flag. -/
structure SystemState where
  store : AppData
  cache : Option AppData
  queue : List SyncAction
  remote : Option AppData
  online : Bool
  syncing : Bool
deriving DecidableEq

/-- Model of `updateStateAndSync(updateFn, syncAction)`: applies `updateFn` to the
current store, writes the new state to the component state and to the local
cache, then either saves to the remote (online) or appends the action —
stamped with a fresh `Date.now().toString()` id — to the persisted queue
(offline). -/
def updateStateAndSync (s : SystemState) (updateFn : AppData → AppData)
    (t : SyncActionType) (dt : DataType) (p : SyncPayload) (actionNow : Nat) :
    SystemState :=
  let newState := updateFn s.store
  if s.online then
    { s with store := newState, cache := some newState, remote := some newState }
  else
    { s with store := newState, cache := some newState,
             queue := s.queue ++ [⟨genId actionNow, t, dt, p⟩] }

/-- Model of `processSyncQueue`: guard on offline/busy, read the queue, guard on
empty, set the busy flag, fetch the remote snapshot (empty fallback),
replay the queue, save, publish the merged snapshot to the store, remove
the queue key, clear the busy flag.  `saveOk = false` models a save that
never completes: only the changes made before the save (the busy flag) are
observable. -/
def processSyncQueueStep (s : SystemState) (saveOk : Bool) : SystemState :=
  if !s.online || s.syncing then s
  else if s.queue.isEmpty then s
  else
    let currentCloudData := s.remote.getD emptyAppData
    let merged := processQueue currentCloudData s.queue
    if saveOk then
      { s with remote := some merged, store := merged, queue := [], syncing := false }
    else
      { s with syncing := true }

/-- Model of `Omit<Income, "id">`: the caller-supplied fields of an income. -/
structure IncomeInput where
  title : String
  amount : Int
  date : String
deriving DecidableEq

/-- Spread `{ ...income, id }`. -/
def IncomeInput.withId (d : IncomeInput) (id : String) : Income :=
  ⟨id, d.title, d.amount, d.date⟩

/-- Model of `Omit<Expense, "id">`. -/
structure ExpenseInput where
  title : String
  amount : Int
  dateTime : String
  segmentId : String
deriving DecidableEq

/-- Spread `{ ...expense, id }`. -/
def ExpenseInput.withId (d : ExpenseInput) (id : String) : Expense :=
  ⟨id, d.title, d.amount, d.dateTime, d.segmentId⟩

/-- Model of `Omit<Segment, "id">`. -/
structure SegmentInput where
  name : String
  allocatedAmount : Int
  color : Option String
deriving DecidableEq

/-- Spread `{ ...segment, id }`. -/
def SegmentInput.withId (d : SegmentInput) (id : String) : Segment :=
  ⟨id, d.name, d.allocatedAmount, d.color⟩

/-- Model of `addIncome`: fresh time-based id, append, sync an `add` action. -/
def addIncome (s : SystemState) (d : IncomeInput) (now actionNow : Nat) : SystemState :=
  let newIncome := d.withId (genId now)
  updateStateAndSync s (fun prev => { prev with incomes := prev.incomes ++ [newIncome] })
    .add .income (.inc newIncome) actionNow

/-- Model of `updateIncome(id, updatedIncome)`: map-replace by id, sync an `update`. -/
def updateIncome (s : SystemState) (id : String) (d : IncomeInput) (actionNow : Nat) :
    SystemState :=
  let fullIncome := d.withId id
  updateStateAndSync s
    (fun prev => { prev with incomes := prev.incomes.map (fun i => if i.id == id then fullIncome else i) })
    .update .income (.inc fullIncome) actionNow

/-- Model of `deleteIncome(id)`: filter by id, sync a `delete` with a `{ id }` payload. -/
def deleteIncome (s : SystemState) (id : String) (actionNow : Nat) : SystemState :=
  updateStateAndSync s
    (fun prev => { prev with incomes := prev.incomes.filter (fun i => i.id != id) })
    .delete .income (.idOnly id) actionNow

/-- Model of `addExpense`. -/
def addExpense (s : SystemState) (d : ExpenseInput) (now actionNow : Nat) : SystemState :=
  let newExpense := d.withId (genId now)
  updateStateAndSync s (fun prev => { prev with expenses := prev.expenses ++ [newExpense] })
    .add .expense (.exp newExpense) actionNow

/-- Model of `updateExpense(id, updatedExpense)`. -/
def updateExpense (s : SystemState) (id : String) (d : ExpenseInput) (actionNow : Nat) :
    SystemState :=
  let fullExpense := d.withId id
  updateStateAndSync s
    (fun prev => { prev with expenses := prev.expenses.map (fun e => if e.id == id then fullExpense else e) })
    .update .expense (.exp fullExpense) actionNow

/-- Model of `deleteExpense(id)`. -/
def deleteExpense (s : SystemState) (id : String) (actionNow : Nat) : SystemState :=
  updateStateAndSync s
    (fun prev => { prev with expenses := prev.expenses.filter (fun e => e.id != id) })
    .delete .expense (.idOnly id) actionNow

/-- Model of `addSegment`. -/
def addSegment (s : SystemState) (d : SegmentInput) (now actionNow : Nat) : SystemState :=
  let newSegment := d.withId (genId now)
  updateStateAndSync s (fun prev => { prev with segments := prev.segments ++ [newSegment] })
    .add .segment (.seg newSegment) actionNow

/-- Model of `updateSegment(id, updatedSegment)`. -/
def updateSegment (s : SystemState) (id : String) (d : SegmentInput) (actionNow : Nat) :
    SystemState :=
  let fullSegment := d.withId id
  updateStateAndSync s
    (fun prev => { prev with segments := prev.segments.map (fun g => if g.id == id then fullSegment else g) })
    .update .segment (.seg fullSegment) actionNow

/-- Model of `deleteSegment(id)`: the one guarded mutator.  If any expense references
the segment it alerts and returns without mutating anything; the returned
Bool is `true` exactly when the operation was refused. -/
def deleteSegment (s : SystemState) (id : String) (actionNow : Nat) :
    SystemState × Bool :=
  let isSegmentInUse := s.store.expenses.any (fun e => e.segmentId == id)
  if isSegmentInUse then
    (s, true)
  else
    (updateStateAndSync s
      (fun prev => { prev with segments := prev.segments.filter (fun g => g.id != id) })
      .delete .segment (.idOnly id) actionNow, false)

/-- The fixed default palette used by `assignDefaultColors`. -/
def defaultColors : List String :=
  ["#38BDF8", "#FBBF24", "#22C55E", "#8B5CF6", "#EC4899", "#EF4444"]

/-- JS falsiness of the `color` property: undefined or the empty string. -/
def colorFalsy : Option String → Bool
  | none => true
  | some c => c == ""

/-- Lookup `defaultColors[index % defaultColors.length]`. -/
def colorAt (index : Nat) : String :=
  defaultColors.getD (index % defaultColors.length) ""

/-- The body of `segs.map((s, index) => ({...s, color: s.color || defaultColors[index % defaultColors.length]}))`,
with the running index made explicit. -/
def assignDefaultColorsAux (index : Nat) : List Segment → List Segment
  | [] => []
  | sg :: rest =>
    { sg with color := if colorFalsy sg.color then some (colorAt index) else sg.color }
      :: assignDefaultColorsAux (index + 1) rest

/-- Model of `assignDefaultColors(segs)` from `replaceAllData`. -/
def assignDefaultColors (segs : List Segment) : List Segment :=
  assignDefaultColorsAux 0 segs

/-- The dynamically-typed argument of `replaceAllData`: each collection is
`some` list when present and array-shaped, `none` when missing or not an
array; the whole value is wrapped in `Option` for the `!data` (null) case. -/
structure RawAppData where
  incomes : Option (List Income)
  expenses : Option (List Expense)
  segments : Option (List Segment)
deriving DecidableEq

/-- Model of `replaceAllData(data)`: validate the three collections, alert and return
on failure; otherwise color the segments, overwrite store and cache, remove
the queue key and, when online, save the full snapshot to the remote (the
busy flag is raised and then cleared in the `finally`).  The returned Bool
is `true` exactly when the import succeeded. -/
def replaceAllData (s : SystemState) (data : Option RawAppData) :
    SystemState × Bool :=
  match data with
  | none => (s, false)
  | some d =>
    match d.incomes, d.expenses, d.segments with
    | some incs, some exps, some segs =>
      let coloredSegments := assignDefaultColors segs
      let fullData : AppData := ⟨incs, exps, coloredSegments⟩
      ({ s with store := fullData, cache := some fullData, queue := [],
                remote := if s.online then some fullData else s.remote,
                syncing := if s.online then false else s.syncing }, true)
    | _, _, _ => (s, false)

/-- The commands a client (UI or environment) can issue against the data
layer; `now`/`actionNow` are the values `Date.now()` returns at the two
call sites involved. -/
inductive Cmd where
  | addInc (d : IncomeInput) (now actionNow : Nat)
  | updInc (id : String) (d : IncomeInput) (actionNow : Nat)
  | delInc (id : String) (actionNow : Nat)
  | addExp (d : ExpenseInput) (now actionNow : Nat)
  | updExp (id : String) (d : ExpenseInput) (actionNow : Nat)
  | delExp (id : String) (actionNow : Nat)
  | addSeg (d : SegmentInput) (now actionNow : Nat)
  | updSeg (id : String) (d : SegmentInput) (actionNow : Nat)
  | delSeg (id : String) (actionNow : Nat)
  | sync (saveOk : Bool)
  | importAll (raw : Option RawAppData)
  | setOnline (b : Bool)
deriving DecidableEq

/-- Whether a command is one of the nine CRUD mutators (all of which go
through `updateStateAndSync`, except that `delSeg` may be refused). -/
def Cmd.isMutation : Cmd → Bool
  | .addInc _ _ _ | .updInc _ _ _ | .delInc _ _
  | .addExp _ _ _ | .updExp _ _ _ | .delExp _ _
  | .addSeg _ _ _ | .updSeg _ _ _ | .delSeg _ _ => true
  | _ => false

/-- Whether a command is a `replaceAllData` call that passes validation. -/
def Cmd.isValidImport : Cmd → Bool
  | .importAll (some d) =>
    d.incomes.isSome && d.expenses.isSome && d.segments.isSome
  | _ => false

/-- One step of the system: dispatch a command to the operation it names. -/
def stepCmd (s : SystemState) : Cmd → SystemState
  | .addInc d n an => addIncome s d n an
  | .updInc id d an => updateIncome s id d an
  | .delInc id an => deleteIncome s id an
  | .addExp d n an => addExpense s d n an
  | .updExp id d an => updateExpense s id d an
  | .delExp id an => deleteExpense s id an
  | .addSeg d n an => addSegment s d n an
  | .updSeg id d an => updateSegment s id d an
  | .delSeg id an => (deleteSegment s id an).1
  | .sync ok => processSyncQueueStep s ok
  | .importAll raw => (replaceAllData s raw).1
  | .setOnline b => { s with online := b }

/-- The state of a fresh scope: empty store, no cache, empty queue, empty
remote, offline, not syncing. -/
def initState : SystemState :=
  ⟨emptyAppData, none, [], none, false, false⟩

/-- Running a list of commands from a state. -/
def run (s : SystemState) (cs : List Cmd) : SystemState :=
  cs.foldl stepCmd s

/-! ## Declarative descriptions of the per-action replay semantics

The spec describes `update` as "replace the record whose id matches if one
exists, else append" and `delete` as "remove if found, else no-op".  The
following two recursions state those descriptions directly; the claim
theorems relate the operational `findIndex`-based code to them. -/

/-- Replace the first element satisfying `p` by `x`; append `x` when none
does. -/
def upsertBy {α : Type} (p : α → Bool) (x : α) : List α → List α
  | [] => [x]
  | a :: tl => if p a then x :: tl else a :: upsertBy p x tl

/-- Remove the first element satisfying `p`; leave the list unchanged when
none does. -/
def removeFirstBy {α : Type} (p : α → Bool) : List α → List α
  | [] => []
  | a :: tl => if p a then tl else a :: removeFirstBy p tl

/-- The `findIndex`-then-assign-or-push idiom computes `upsertBy`. -/
theorem findIndexOpt_set {α : Type} (p : α → Bool) (x : α) (l : List α) :
    (match findIndexOpt p l with
      | some i => l.set i x
      | none => l ++ [x]) = upsertBy p x l := by
  induction l with
  | nil => rfl
  | cons a tl ih =>
    by_cases h : p a
    · simp [findIndexOpt, upsertBy, h]
    · cases hfi : findIndexOpt p tl with
      | none =>
        rw [hfi] at ih
        simp only [] at ih
        simp [findIndexOpt, upsertBy, h, hfi, ih]
      | some i =>
        rw [hfi] at ih
        simp [findIndexOpt, upsertBy, h, hfi, ← ih]

/-- The `findIndex`-then-`splice` idiom computes `removeFirstBy`. -/
theorem findIndexOpt_erase {α : Type} (p : α → Bool) (l : List α) :
    (match findIndexOpt p l with
      | some i => l.eraseIdx i
      | none => l) = removeFirstBy p l := by
  induction l with
  | nil => rfl
  | cons a tl ih =>
    by_cases h : p a
    · simp [findIndexOpt, removeFirstBy, h]
    · cases hfi : findIndexOpt p tl with
      | none =>
        rw [hfi] at ih
        simp only [] at ih
        simp [findIndexOpt, removeFirstBy, h, hfi, ← ih]
      | some i =>
        rw [hfi] at ih
        simp [findIndexOpt, removeFirstBy, h, hfi, ← ih]

/-- The replay body on one collection, `update` case, for a payload the
downcast accepts. -/
theorem applyOp_update_eq {α : Type} (getId : α → String)
    (asRec : SyncPayload → Option α) (p : SyncPayload) (x : α) (l : List α)
    (hx : asRec p = some x) :
    applyOp getId asRec .update p l
      = upsertBy (fun it => getId it == p.pid) x l := by
  rw [← findIndexOpt_set (fun it => getId it == p.pid) x l]
  unfold applyOp
  cases hfi : findIndexOpt (fun it => getId it == p.pid) l <;> simp [hfi, hx]

/-- The replay body on one collection, `delete` case. -/
theorem applyOp_delete_eq {α : Type} (getId : α → String)
    (asRec : SyncPayload → Option α) (p : SyncPayload) (l : List α) :
    applyOp getId asRec .delete p l
      = removeFirstBy (fun it => getId it == p.pid) l := by
  rw [← findIndexOpt_erase (fun it => getId it == p.pid) l]
  unfold applyOp
  cases hfi : findIndexOpt (fun it => getId it == p.pid) l <;> simp [hfi]

/-- C1: the sync pass replays the queued actions in queue (FIFO/insertion)
order against the fetched snapshot (`processQueue` is the left fold of
`applyAction`, so a queue decomposes action by action and prefix by prefix),
and each action has exactly the stated per-kind semantics: `add` appends
the payload to the collection of its entity kind, `update` replaces the
(first) record whose id equals the payload id and appends the payload
when there is none, and `delete` removes the (first) record whose id equals
the payload id and leaves the snapshot unchanged when there is none. -/
theorem claim1_replay_semantics :
    ∀ (d : AppData) (q1 q2 : List SyncAction) (a : SyncAction) (aid tid : String)
      (xi : Income) (xe : Expense) (xg : Segment),
    processQueue d [] = d
    ∧ processQueue d (a :: q2) = processQueue (applyAction d a) q2
    ∧ processQueue d (q1 ++ q2) = processQueue (processQueue d q1) q2
    ∧ applyAction d ⟨aid, .add, .income, .inc xi⟩
        = { d with incomes := d.incomes ++ [xi] }
    ∧ applyAction d ⟨aid, .add, .expense, .exp xe⟩
        = { d with expenses := d.expenses ++ [xe] }
    ∧ applyAction d ⟨aid, .add, .segment, .seg xg⟩
        = { d with segments := d.segments ++ [xg] }
    ∧ applyAction d ⟨aid, .update, .income, .inc xi⟩
        = { d with incomes := upsertBy (fun it => it.id == xi.id) xi d.incomes }
    ∧ applyAction d ⟨aid, .update, .expense, .exp xe⟩
        = { d with expenses := upsertBy (fun it => it.id == xe.id) xe d.expenses }
    ∧ applyAction d ⟨aid, .update, .segment, .seg xg⟩
        = { d with segments := upsertBy (fun it => it.id == xg.id) xg d.segments }
    ∧ applyAction d ⟨aid, .delete, .income, .idOnly tid⟩
        = { d with incomes := removeFirstBy (fun it => it.id == tid) d.incomes }
    ∧ applyAction d ⟨aid, .delete, .expense, .idOnly tid⟩
        = { d with expenses := removeFirstBy (fun it => it.id == tid) d.expenses }
    ∧ applyAction d ⟨aid, .delete, .segment, .idOnly tid⟩
        = { d with segments := removeFirstBy (fun it => it.id == tid) d.segments } := by
  intro d q1 q2 a aid tid xi xe xg
  refine ⟨rfl, rfl, ?_, rfl, rfl, rfl, ?_, ?_, ?_, ?_, ?_, ?_⟩
  · simp [processQueue, List.foldl_append]
  · simp only [applyAction]
    rw [applyOp_update_eq Income.id asIncome (SyncPayload.inc xi) xi d.incomes rfl]
    rfl
  · simp only [applyAction]
    rw [applyOp_update_eq Expense.id asExpense (SyncPayload.exp xe) xe d.expenses rfl]
    rfl
  · simp only [applyAction]
    rw [applyOp_update_eq Segment.id asSegment (SyncPayload.seg xg) xg d.segments rfl]
    rfl
  · simp only [applyAction]
    rw [applyOp_delete_eq Income.id asIncome (SyncPayload.idOnly tid) d.incomes]
    rfl
  · simp only [applyAction]
    rw [applyOp_delete_eq Expense.id asExpense (SyncPayload.idOnly tid) d.expenses]
    rfl
  · simp only [applyAction]
    rw [applyOp_delete_eq Segment.id asSegment (SyncPayload.idOnly tid) d.segments]
    rfl

/-- Mapping a replace-by-id function over a list in which no element
carries the id is the identity. -/
theorem map_ite_id {α : Type} (l : List α) (f : α → String) (id : String)
    (x : α) (h : ∀ a ∈ l, f a ≠ id) :
    l.map (fun a => if f a = id then x else a) = l := by
  induction l with
  | nil => rfl
  | cons a tl ih =>
    have ha := h a (by simp)
    simp [ha, ih (fun b hb => h b (by simp [hb]))]

/-- Sample records used by concrete witness states. -/
def sampleIncome : Income := ⟨"i1", "Salary", 50000, "2024-01-01"⟩

/-- A sample expense referencing segment id "g1". -/
def sampleExpense : Expense := ⟨"e1", "Lunch", 500, "2024-01-01T12:00", "g1"⟩

/-- A sample segment with id "g1" and no color. -/
def sampleSegment : Segment := ⟨"g1", "Food", 10000, none⟩

/-- A sample state: one expense referencing the one segment, offline, idle. -/
def sampleState : SystemState :=
  ⟨⟨[sampleIncome], [sampleExpense], [sampleSegment]⟩, none, [], none, false, false⟩

/-- C4: a sync pass invoked while offline, or while a pass is already in
progress, or while the queue is empty, returns immediately and changes no
state at all (store, cache, queue, remote, busy flag and connectivity flag
are all exactly as before, in particular the busy flag is not raised). -/
theorem claim4_sync_pass_guards (s : SystemState) (saveOk : Bool)
    (h : s.online = false ∨ s.syncing = true ∨ s.queue = []) :
    processSyncQueueStep s saveOk = s := by
  unfold processSyncQueueStep
  rcases h with h | h | h
  · simp [h]
  · simp [h]
  · by_cases hg : (!s.online || s.syncing) = true
    · simp [hg]
    · simp [hg, h]

/-- C4 witness: the initial state is offline, so a sync pass is a no-op. -/
theorem claim4_sync_pass_guards_witness :
    processSyncQueueStep initState true = initState :=
  claim4_sync_pass_guards initState true (Or.inl rfl)

/-- C5: when at least one expense references segment id `segId`,
`deleteSegment segId` is refused (the synchronous alert, modelled by the
`true` flag) and performs no state mutation whatsoever: the whole system
state — every segment, expense and income, the local cache, the queue and
the remote — is returned unchanged. -/
theorem claim5_delete_segment_refusal (s : SystemState) (segId : String)
    (actionNow : Nat)
    (h : s.store.expenses.any (fun e => e.segmentId == segId) = true) :
    deleteSegment s segId actionNow = (s, true) := by
  unfold deleteSegment
  simp [h]

/-- C5 witness: deleting segment "g1" of the sample state, which the sample
expense references, is refused and leaves the state unchanged. -/
theorem claim5_delete_segment_refusal_witness :
    deleteSegment sampleState "g1" 3 = (sampleState, true) :=
  claim5_delete_segment_refusal sampleState "g1" 3 (by decide)

/-- C7: when no record carries the requested id, `updateX(id, fields)`
leaves the corresponding collection unchanged (for each of the three entity
kinds), and yet, when offline, the call still appends an `update`
SyncAction whose payload is `fields` merged with `id` to the sync queue —
an orphan queue entry. -/
theorem claim7_orphan_update_entry (s : SystemState) (id : String)
    (di : IncomeInput) (de : ExpenseInput) (dg : SegmentInput) (an : Nat) :
    ((∀ i ∈ s.store.incomes, i.id ≠ id) →
      (updateIncome s id di an).store.incomes = s.store.incomes
      ∧ (s.online = false →
          (updateIncome s id di an).queue
            = s.queue ++ [⟨genId an, .update, .income, .inc (di.withId id)⟩]))
    ∧ ((∀ e ∈ s.store.expenses, e.id ≠ id) →
      (updateExpense s id de an).store.expenses = s.store.expenses
      ∧ (s.online = false →
          (updateExpense s id de an).queue
            = s.queue ++ [⟨genId an, .update, .expense, .exp (de.withId id)⟩]))
    ∧ ((∀ g ∈ s.store.segments, g.id ≠ id) →
      (updateSegment s id dg an).store.segments = s.store.segments
      ∧ (s.online = false →
          (updateSegment s id dg an).queue
            = s.queue ++ [⟨genId an, .update, .segment, .seg (dg.withId id)⟩])) := by
  refine ⟨fun h => ⟨?_, fun ho => ?_⟩, fun h => ⟨?_, fun ho => ?_⟩,
    fun h => ⟨?_, fun ho => ?_⟩⟩
  · unfold updateIncome updateStateAndSync
    by_cases hon : s.online = true <;>
      simp [hon, map_ite_id _ _ _ _ h]
  · unfold updateIncome updateStateAndSync
    simp [ho]
  · unfold updateExpense updateStateAndSync
    by_cases hon : s.online = true <;>
      simp [hon, map_ite_id _ _ _ _ h]
  · unfold updateExpense updateStateAndSync
    simp [ho]
  · unfold updateSegment updateStateAndSync
    by_cases hon : s.online = true <;>
      simp [hon, map_ite_id _ _ _ _ h]
  · unfold updateSegment updateStateAndSync
    simp [ho]

/-- C7 witness: updating income id "zzz", absent from the sample state,
leaves the incomes unchanged and (offline) enqueues the orphan action. -/
theorem claim7_orphan_update_entry_witness :
    (updateIncome sampleState "zzz" ⟨"Bonus", 1, "2024-02-02"⟩ 9).store.incomes
        = sampleState.store.incomes
    ∧ (updateIncome sampleState "zzz" ⟨"Bonus", 1, "2024-02-02"⟩ 9).queue
        = sampleState.queue
            ++ [⟨genId 9, .update, .income, .inc (IncomeInput.withId ⟨"Bonus", 1, "2024-02-02"⟩ "zzz")⟩] := by
  have h := (claim7_orphan_update_entry sampleState "zzz" ⟨"Bonus", 1, "2024-02-02"⟩
    ⟨"t", 1, "d", "g"⟩ ⟨"n", 1, none⟩ 9).1 (by decide)
  exact ⟨h.1, h.2 rfl⟩

/-- A throwaway default segment for positional list access. -/
def dfltSeg : Segment := ⟨"", "", 0, none⟩

/-- The function `assignDefaultColorsAux` preserves the length of the list. -/
theorem assignDefaultColorsAux_length (i : Nat) (l : List Segment) :
    (assignDefaultColorsAux i l).length = l.length := by
  induction l generalizing i with
  | nil => rfl
  | cons a tl ih => simp [assignDefaultColorsAux, ih]

/-- Positional characterization of `assignDefaultColorsAux`: the segment at
position `k` keeps its color when it has a truthy one and otherwise gets
the palette color of position `i + k`. -/
theorem assignDefaultColorsAux_getD (l : List Segment) :
    ∀ (i k : Nat), k < l.length →
    (assignDefaultColorsAux i l).getD k dfltSeg
      = { l.getD k dfltSeg with
          color := if colorFalsy (l.getD k dfltSeg).color
                   then some (colorAt (i + k))
                   else (l.getD k dfltSeg).color } := by
  induction l with
  | nil => intro i k hk; simp at hk
  | cons a tl ih =>
    intro i k hk
    cases k with
    | zero => simp [assignDefaultColorsAux]
    | succ k =>
      have hk' : k < tl.length := by simpa using hk
      have := ih (i + 1) k hk'
      simpa [assignDefaultColorsAux, Nat.add_right_comm i 1 k,
        Nat.add_assoc] using this

/-- C6: `replaceAllData` signals a validation failure and mutates nothing
when the argument is null or any of the three collections is missing or
not an array; when all three are arrays it replaces the entity store and
the local cache with the imported data (segments recolored), clears the
sync queue, pushes the full imported snapshot to the remote exactly when
online, and the recoloring assigns (positionally) a palette default color
to every segment with a missing or empty color and keeps every other
segment color. -/
theorem claim6_replace_all_data (s : SystemState) (d : RawAppData)
    (incs : List Income) (exps : List Expense) (segs : List Segment)
    (k : Nat) :
    replaceAllData s none = (s, false)
    ∧ ((d.incomes = none ∨ d.expenses = none ∨ d.segments = none) →
        replaceAllData s (some d) = (s, false))
    ∧ replaceAllData s (some ⟨some incs, some exps, some segs⟩)
        = ({ s with
              store := ⟨incs, exps, assignDefaultColors segs⟩,
              cache := some ⟨incs, exps, assignDefaultColors segs⟩,
              queue := [],
              remote := if s.online then some ⟨incs, exps, assignDefaultColors segs⟩
                        else s.remote,
              syncing := if s.online then false else s.syncing }, true)
    ∧ (assignDefaultColors segs).length = segs.length
    ∧ (k < segs.length →
        (assignDefaultColors segs).getD k dfltSeg
          = { segs.getD k dfltSeg with
              color := if colorFalsy (segs.getD k dfltSeg).color
                       then some (colorAt k)
                       else (segs.getD k dfltSeg).color }) := by
  refine ⟨rfl, ?_, rfl, assignDefaultColorsAux_length 0 segs, fun hk => ?_⟩
  · intro h
    rcases d with ⟨di, de, dg⟩
    rcases di with _ | di <;> rcases de with _ | de <;> rcases dg with _ | dg <;>
      first
        | rfl
        | simp at h
  · simpa using assignDefaultColorsAux_getD segs 0 k hk

/-- C6 witness: an import with a missing incomes collection is refused on
the sample state, and the recoloring of the one-element colorless segment
list gives it the first palette color. -/
theorem claim6_replace_all_data_witness :
    replaceAllData sampleState (some ⟨none, some [], some []⟩)
        = (sampleState, false)
    ∧ (assignDefaultColors [sampleSegment]).getD 0 dfltSeg
        = { [sampleSegment].getD 0 dfltSeg with
            color := if colorFalsy ([sampleSegment].getD 0 dfltSeg).color
                     then some (colorAt 0)
                     else ([sampleSegment].getD 0 dfltSeg).color } :=
  ⟨(claim6_replace_all_data sampleState ⟨none, some [], some []⟩ [] [] [sampleSegment] 0).2.1
      (Or.inl rfl),
   (claim6_replace_all_data sampleState ⟨none, some [], some []⟩ [] [] [sampleSegment] 0).2.2.2.2
      (by decide)⟩

/-- A sync pass whose save does not complete leaves the queue untouched. -/
theorem processSyncQueueStep_queue_of_not_saveOk (s : SystemState) :
    (processSyncQueueStep s false).queue = s.queue := by
  unfold processSyncQueueStep
  by_cases h1 : (!s.online || s.syncing) = true
  · simp [h1]
  · by_cases h2 : s.queue.isEmpty <;> simp [h1, h2]

/-- A sync pass whose save completes either clears the queue in full or was
guarded off and changed nothing at all. -/
theorem processSyncQueueStep_queue_of_saveOk (s : SystemState) :
    (processSyncQueueStep s true).queue = [] ∨ processSyncQueueStep s true = s := by
  unfold processSyncQueueStep
  by_cases h1 : (!s.online || s.syncing) = true
  · right; simp [h1]
  · by_cases h2 : s.queue.isEmpty
    · right; simp [h1, h2]
    · left; simp [h1, h2]

/-- C2 (amended): across every step of the system the sync queue changes
only in one of these ways — an offline mutation appends exactly one action,
a sync pass whose save completes clears it in full, or a validated
`replaceAllData` import clears it in full.  In particular the queue is
never partially cleared, online mutations never touch it, and a sync pass
in which the remote save does not complete leaves it exactly intact. -/
theorem claim2_queue_discipline (s : SystemState) (c : Cmd) :
    ((stepCmd s c).queue ≠ s.queue →
      (∃ a, (stepCmd s c).queue = s.queue ++ [a]
            ∧ s.online = false ∧ c.isMutation = true)
      ∨ ((stepCmd s c).queue = []
          ∧ (c = Cmd.sync true ∨ c.isValidImport = true)))
    ∧ (c = Cmd.sync false → (stepCmd s c).queue = s.queue) := by
  cases c with
  | addInc d n an =>
    refine ⟨fun h => ?_, fun hc => by simp at hc⟩
    by_cases hon : s.online = true
    · exact absurd (by simp [stepCmd, addIncome, updateStateAndSync, hon]) h
    · exact Or.inl ⟨⟨genId an, .add, .income, .inc (d.withId (genId n))⟩,
        by simp [stepCmd, addIncome, updateStateAndSync, hon],
        by simpa using hon, rfl⟩
  | updInc id d an =>
    refine ⟨fun h => ?_, fun hc => by simp at hc⟩
    by_cases hon : s.online = true
    · exact absurd (by simp [stepCmd, updateIncome, updateStateAndSync, hon]) h
    · exact Or.inl ⟨⟨genId an, .update, .income, .inc (d.withId id)⟩,
        by simp [stepCmd, updateIncome, updateStateAndSync, hon],
        by simpa using hon, rfl⟩
  | delInc id an =>
    refine ⟨fun h => ?_, fun hc => by simp at hc⟩
    by_cases hon : s.online = true
    · exact absurd (by simp [stepCmd, deleteIncome, updateStateAndSync, hon]) h
    · exact Or.inl ⟨⟨genId an, .delete, .income, .idOnly id⟩,
        by simp [stepCmd, deleteIncome, updateStateAndSync, hon],
        by simpa using hon, rfl⟩
  | addExp d n an =>
    refine ⟨fun h => ?_, fun hc => by simp at hc⟩
    by_cases hon : s.online = true
    · exact absurd (by simp [stepCmd, addExpense, updateStateAndSync, hon]) h
    · exact Or.inl ⟨⟨genId an, .add, .expense, .exp (d.withId (genId n))⟩,
        by simp [stepCmd, addExpense, updateStateAndSync, hon],
        by simpa using hon, rfl⟩
  | updExp id d an =>
    refine ⟨fun h => ?_, fun hc => by simp at hc⟩
    by_cases hon : s.online = true
    · exact absurd (by simp [stepCmd, updateExpense, updateStateAndSync, hon]) h
    · exact Or.inl ⟨⟨genId an, .update, .expense, .exp (d.withId id)⟩,
        by simp [stepCmd, updateExpense, updateStateAndSync, hon],
        by simpa using hon, rfl⟩
  | delExp id an =>
    refine ⟨fun h => ?_, fun hc => by simp at hc⟩
    by_cases hon : s.online = true
    · exact absurd (by simp [stepCmd, deleteExpense, updateStateAndSync, hon]) h
    · exact Or.inl ⟨⟨genId an, .delete, .expense, .idOnly id⟩,
        by simp [stepCmd, deleteExpense, updateStateAndSync, hon],
        by simpa using hon, rfl⟩
  | addSeg d n an =>
    refine ⟨fun h => ?_, fun hc => by simp at hc⟩
    by_cases hon : s.online = true
    · exact absurd (by simp [stepCmd, addSegment, updateStateAndSync, hon]) h
    · exact Or.inl ⟨⟨genId an, .add, .segment, .seg (d.withId (genId n))⟩,
        by simp [stepCmd, addSegment, updateStateAndSync, hon],
        by simpa using hon, rfl⟩
  | updSeg id d an =>
    refine ⟨fun h => ?_, fun hc => by simp at hc⟩
    by_cases hon : s.online = true
    · exact absurd (by simp [stepCmd, updateSegment, updateStateAndSync, hon]) h
    · exact Or.inl ⟨⟨genId an, .update, .segment, .seg (d.withId id)⟩,
        by simp [stepCmd, updateSegment, updateStateAndSync, hon],
        by simpa using hon, rfl⟩
  | delSeg id an =>
    refine ⟨fun h => ?_, fun hc => by simp at hc⟩
    by_cases hu : s.store.expenses.any (fun e => e.segmentId == id) = true
    · exact absurd (by simp [stepCmd, deleteSegment, hu]) h
    · by_cases hon : s.online = true
      · exact absurd
          (by simp [stepCmd, deleteSegment, hu, updateStateAndSync, hon]) h
      · exact Or.inl ⟨⟨genId an, .delete, .segment, .idOnly id⟩,
          by simp [stepCmd, deleteSegment, hu, updateStateAndSync, hon],
          by simpa using hon, rfl⟩
  | sync ok =>
    cases ok with
    | false =>
      exact ⟨fun h => absurd (processSyncQueueStep_queue_of_not_saveOk s) h,
        fun _ => processSyncQueueStep_queue_of_not_saveOk s⟩
    | true =>
      refine ⟨fun h => ?_, fun hc => by simp at hc⟩
      rcases processSyncQueueStep_queue_of_saveOk s with hq | hq
      · exact Or.inr ⟨hq, Or.inl rfl⟩
      · exact absurd (congrArg SystemState.queue hq) h
  | importAll raw =>
    refine ⟨fun h => ?_, fun hc => by simp at hc⟩
    rcases raw with _ | ⟨di, de, dg⟩
    · exact absurd rfl h
    · rcases di with _ | di <;> rcases de with _ | de <;> rcases dg with _ | dg
      case some.some.some =>
        exact Or.inr ⟨rfl, Or.inr rfl⟩
      all_goals exact absurd rfl h
  | setOnline b =>
    exact ⟨fun h => absurd rfl h, fun hc => by simp at hc⟩

/-- The single queued action used by the concrete counterexample state. -/
def queuedAction : SyncAction := ⟨"1", .add, .income, .inc sampleIncome⟩

/-- A state with one queued action, offline, idle, empty remote. -/
def queuedState : SystemState :=
  ⟨emptyAppData, none, [queuedAction], none, false, false⟩

/-- C2 counterexample: a full-backup import (`replaceAllData` with a valid
payload) clears a non-empty queue while the system is offline, with the
remote left untouched (still absent) — so the queue is cleared by a step
that is not a sync pass and after which no remote save of a replayed
snapshot has completed. -/
theorem claim2_counterexample :
    queuedState.queue ≠ []
    ∧ queuedState.online = false
    ∧ (stepCmd queuedState (.importAll (some ⟨some [], some [], some []⟩))).queue = []
    ∧ (stepCmd queuedState (.importAll (some ⟨some [], some [], some []⟩))).remote = none := by
  refine ⟨by decide, rfl, rfl, rfl⟩

/-- C2 witness: a failed-save sync pass on the queued state leaves the
queue exactly intact. -/
theorem claim2_queue_discipline_witness :
    (stepCmd queuedState (Cmd.sync false)).queue = queuedState.queue :=
  (claim2_queue_discipline queuedState (Cmd.sync false)).2 rfl

/-- Chronological events of one `updateStateAndSync` run, in source order. -/
inductive Event where
  | cacheWrite (d : AppData)
  | remoteSave (d : AppData)
  | queueAppend (a : SyncAction)
deriving DecidableEq

/-- Whether an event is part of the network interaction of a mutation (the
direct remote save when online, or the queue append when offline). -/
def Event.isNetwork : Event → Bool
  | .cacheWrite _ => false
  | .remoteSave _ => true
  | .queueAppend _ => true

/-- The event trace of `updateStateAndSync`, read off the statement order
of the source: `localStorage.setItem(localDataKey, JSON.stringify(newState))`
first, then either `cloudSyncApi.saveData(MOCK_USER_ID, newState)` (online)
or the queue push (offline). -/
def updateStateAndSyncEvents (s : SystemState) (newState : AppData)
    (a : SyncAction) : List Event :=
  Event.cacheWrite newState ::
    (if s.online then [Event.remoteSave newState] else [Event.queueAppend a])

/-- Effect of one event on the system state. -/
def applyEvent (s : SystemState) : Event → SystemState
  | .cacheWrite d => { s with cache := some d }
  | .remoteSave d => { s with remote := some d }
  | .queueAppend a => { s with queue := s.queue ++ [a] }

/-- Effect of a trace of events. -/
def applyEvents (s : SystemState) (es : List Event) : SystemState :=
  es.foldl applyEvent s

/-- C9: in every mutation, the full post-mutation `AppData` aggregate is
written to the local cache strictly before any network interaction (the
direct remote save when online, the queue append when offline): the first
event of the mutation trace is the cache write of the new aggregate, every
network event is preceded by that cache write, and replaying the trace over
the store-updated state reproduces exactly what `updateStateAndSync`
does. -/
theorem claim9_cache_write_before_network (s : SystemState)
    (f : AppData → AppData) (t : SyncActionType) (dt : DataType)
    (p : SyncPayload) (an : Nat) :
    (updateStateAndSyncEvents s (f s.store) ⟨genId an, t, dt, p⟩).head?
        = some (Event.cacheWrite (f s.store))
    ∧ (∀ (j : Nat) (e : Event),
        (updateStateAndSyncEvents s (f s.store) ⟨genId an, t, dt, p⟩).get? j
            = some e →
        e.isNetwork = true →
        ∃ i, i < j
          ∧ (updateStateAndSyncEvents s (f s.store) ⟨genId an, t, dt, p⟩).get? i
              = some (Event.cacheWrite (f s.store)))
    ∧ applyEvents { s with store := f s.store }
        (updateStateAndSyncEvents s (f s.store) ⟨genId an, t, dt, p⟩)
        = updateStateAndSync s f t dt p an := by
  refine ⟨rfl, fun j e hj hn => ?_, ?_⟩
  · cases j with
    | zero =>
      have he : Event.cacheWrite (f s.store) = e := by
        simpa [updateStateAndSyncEvents] using hj
      rw [← he] at hn
      simp [Event.isNetwork] at hn
    | succ j => exact ⟨0, Nat.succ_pos j, rfl⟩
  · by_cases hon : s.online = true <;>
      simp [updateStateAndSyncEvents, applyEvents, applyEvent,
        updateStateAndSync, hon]

/-- C9 witness: for the offline sample state, the network event at position
1 of the trace is preceded by the cache write at position 0. -/
theorem claim9_cache_write_before_network_witness :
    ∃ i, i < 1
      ∧ (updateStateAndSyncEvents sampleState (id sampleState.store)
          ⟨genId 3, SyncActionType.add, DataType.income, SyncPayload.inc sampleIncome⟩).get? i
        = some (Event.cacheWrite (id sampleState.store)) :=
  (claim9_cache_write_before_network sampleState id .add .income
      (.inc sampleIncome) 3).2.1 1
    (Event.queueAppend ⟨genId 3, .add, .income, .inc sampleIncome⟩) rfl rfl

/-- A command trace: offline, add a segment (id "1"), issue an orphan
update for a missing expense "e9" that references segment "1", delete
segment "1" (allowed — no local expense references it), go online, sync. -/
def danglingTrace : List Cmd :=
  [ .addSeg ⟨"Food", 10000, none⟩ 1 2,
    .updExp "e9" ⟨"Lunch", 500, "2024-01-01T12:00", "1"⟩ 3,
    .delSeg "1" 4,
    .setOnline true,
    .sync true ]

/-- C10: a queued `delete` action for a segment removes the segment from
the fetched snapshot unconditionally — the replay path touches only the
segments collection and performs no referencing-expense check — and there
is a reachable state (the end of `danglingTrace`) in which the post-sync
entity store contains an expense whose segmentId names no existing
segment. -/
theorem claim10_unchecked_segment_delete_in_replay :
    (∀ (d : AppData) (aid tid : String),
      applyAction d ⟨aid, .delete, .segment, .idOnly tid⟩
        = { d with segments := removeFirstBy (fun g => g.id == tid) d.segments })
    ∧ (run initState danglingTrace).store.expenses.any (fun e =>
        !((run initState danglingTrace).store.segments.any
          (fun g => g.id == e.segmentId))) = true := by
  constructor
  · intro d aid tid
    simp only [applyAction]
    rw [applyOp_delete_eq Segment.id asSegment (SyncPayload.idOnly tid) d.segments]
    rfl
  · decide

/-- Decimal value of a digit character produced by `Nat.digitChar`. -/
def digitVal (c : Char) : Nat :=
  if c = '0' then 0 else if c = '1' then 1 else if c = '2' then 2 else
  if c = '3' then 3 else if c = '4' then 4 else if c = '5' then 5 else
  if c = '6' then 6 else if c = '7' then 7 else if c = '8' then 8 else
  if c = '9' then 9 else 0

/-- The function `digitVal` decodes `Nat.digitChar` on decimal digits. -/
theorem digitVal_digitChar (n : Nat) (h : n < 10) :
    digitVal (Nat.digitChar n) = n := by
  interval_cases n <;> decide

/-- Decimal decoding of a most-significant-first digit-character list. -/
def decDigits (ds : List Char) : Nat :=
  ds.foldl (fun acc c => 10 * acc + digitVal c) 0

/-- Decoding after appending one digit character. -/
theorem decDigits_append_singleton (xs : List Char) (c : Char) :
    decDigits (xs ++ [c]) = 10 * decDigits xs + digitVal c := by
  simp [decDigits, List.foldl_append]

/-- The accumulator of `Nat.toDigitsCore` is a plain suffix. -/
theorem toDigitsCore_append (fuel : Nat) :
    ∀ (n : Nat) (ds : List Char),
    Nat.toDigitsCore 10 fuel n ds = Nat.toDigitsCore 10 fuel n [] ++ ds := by
  induction fuel with
  | zero => intro n ds; simp [Nat.toDigitsCore]
  | succ fuel ih =>
    intro n ds
    simp only [Nat.toDigitsCore]
    by_cases h : n / 10 = 0
    · simp [h]
    · rw [if_neg h, if_neg h, ih (n / 10) (Nat.digitChar (n % 10) :: ds),
        ih (n / 10) [Nat.digitChar (n % 10)]]
      simp

/-- The function `decDigits` decodes `Nat.toDigitsCore` given enough fuel. -/
theorem decDigits_toDigitsCore (fuel : Nat) :
    ∀ n, n < fuel → decDigits (Nat.toDigitsCore 10 fuel n []) = n := by
  induction fuel with
  | zero => intro n h; omega
  | succ fuel ih =>
    intro n h
    simp only [Nat.toDigitsCore]
    by_cases h10 : n / 10 = 0
    · have hlt : n < 10 := by omega
      rw [if_pos h10]
      simp [decDigits, Nat.mod_eq_of_lt hlt, digitVal_digitChar n hlt]
    · rw [if_neg h10, toDigitsCore_append, decDigits_append_singleton,
        ih (n / 10) (by omega), digitVal_digitChar (n % 10) (by omega)]
      omega

/-- Injectivity of `Nat.repr`: it (hence `Date.now().toString()` on distinct clock values) is
injective. -/
theorem natRepr_injective (m n : Nat) (h : Nat.repr m = Nat.repr n) :
    m = n := by
  have hd : Nat.toDigits 10 m = Nat.toDigits 10 n := by
    have h2 : (Nat.toDigits 10 m).asString = (Nat.toDigits 10 n).asString := h
    exact List.asString_inj.mp h2
  have hm := decDigits_toDigitsCore (m + 1) m (Nat.lt_succ_self m)
  have hn := decDigits_toDigitsCore (n + 1) n (Nat.lt_succ_self n)
  unfold Nat.toDigits at hd
  rw [← hm, ← hn, hd]

/-- The state after two `addIncome` calls that both observe clock value 7. -/
def sameMsState : SystemState :=
  addIncome (addIncome initState ⟨"Salary", 50000, "2024-01-01"⟩ 7 7)
    ⟨"Bonus", 1, "2024-01-02"⟩ 7 7

/-- C8 counterexample: two distinct `addIncome` calls that observe the same
millisecond clock value (`Date.now()` returning 7 both times) create two
records whose ids are both "7" — the assigned identifiers are not unique
across distinct add calls. -/
theorem claim8_counterexample :
    sameMsState.store.incomes.map Income.id = ["7", "7"]
    ∧ sameMsState.store.incomes.length = 2 := by
  refine ⟨by decide, by decide⟩

/-- C8 (amended): each addX call (X ∈ Income, Expense, Segment) appends a
record whose id is `Date.now().toString()` for the clock value observed at
the call, and this time-based id is injective in the clock value — records
created by add calls at distinct millisecond timestamps have distinct ids,
while calls within one millisecond receive equal ids. -/
theorem claim8_time_based_ids (s : SystemState) (di : IncomeInput)
    (de : ExpenseInput) (dg : SegmentInput) (n an t1 t2 : Nat) :
    (addIncome s di n an).store.incomes = s.store.incomes ++ [di.withId (genId n)]
    ∧ (addExpense s de n an).store.expenses = s.store.expenses ++ [de.withId (genId n)]
    ∧ (addSegment s dg n an).store.segments = s.store.segments ++ [dg.withId (genId n)]
    ∧ (t1 ≠ t2 → genId t1 ≠ genId t2) := by
  refine ⟨?_, ?_, ?_, fun hne hgen => hne (natRepr_injective t1 t2 hgen)⟩
  · unfold addIncome updateStateAndSync
    by_cases hon : s.online = true <;> simp [hon]
  · unfold addExpense updateStateAndSync
    by_cases hon : s.online = true <;> simp [hon]
  · unfold addSegment updateStateAndSync
    by_cases hon : s.online = true <;> simp [hon]

/-- C8 witness: clock values 1 and 2 give distinct ids. -/
theorem claim8_time_based_ids_witness : genId 1 ≠ genId 2 :=
  (claim8_time_based_ids initState ⟨"", 0, ""⟩ ⟨"", 0, "", ""⟩ ⟨"", 0, none⟩
    0 0 1 2).2.2.2 (by decide)

/-- Boolean-predicate variant of `map_ite_id`: replacing matches when there
are none is the identity. -/
theorem map_ite_id_bool {α : Type} (l : List α) (p : α → Bool) (x : α)
    (h : ∀ a ∈ l, p a = false) :
    l.map (fun a => if p a then x else a) = l := by
  induction l with
  | nil => rfl
  | cons a tl ih =>
    have ha := h a (by simp)
    simp [ha, ih (fun b hb => h b (by simp [hb]))]

/-- In a list whose ids are pairwise distinct, at most one element carries
any given id. -/
theorem countP_id_le_one {α : Type} (getId : α → String) (l : List α)
    (hnd : (l.map getId).Nodup) (tid : String) :
    l.countP (fun a => getId a == tid) ≤ 1 := by
  induction l with
  | nil => simp
  | cons a tl ih =>
    simp only [List.map_cons, List.nodup_cons] at hnd
    by_cases hpa : (getId a == tid) = true
    · rw [List.countP_cons_of_pos (fun b => getId b == tid) _ hpa]
      have h0 : tl.countP (fun a => getId a == tid) = 0 := by
        rw [List.countP_eq_zero]
        intro b hb hb2
        have h1 : getId a = tid := by simpa using hpa
        have h2 : getId b = tid := by simpa using hb2
        exact hnd.1 (by rw [h1, ← h2]; exact List.mem_map_of_mem getId hb)
      omega
    · rw [List.countP_cons_of_neg (fun b => getId b == tid) _ (by simpa using hpa)]
      exact ih hnd.2

/-- When at most one element matches and some element matches,
replace-first-or-append coincides with replace-every-match. -/
theorem upsertBy_eq_map {α : Type} (p : α → Bool) (x : α) (l : List α)
    (hc : l.countP p ≤ 1) (ha : l.any p = true) :
    upsertBy p x l = l.map (fun a => if p a then x else a) := by
  induction l with
  | nil => simp at ha
  | cons a tl ih =>
    by_cases hpa : p a = true
    · have h0 : tl.countP p = 0 := by
        rw [List.countP_cons_of_pos p _ hpa] at hc
        omega
      have hnone : ∀ b ∈ tl, p b = false := by
        intro b hb
        have := List.countP_eq_zero.mp h0 b hb
        simpa using this
      have hmap := map_ite_id_bool tl p x hnone
      simp [upsertBy, hpa, hmap]
    · have hc2 : tl.countP p ≤ 1 := by
        rw [List.countP_cons_of_neg p _ (by simpa using hpa)] at hc
        exact hc
      have ha2 : tl.any p = true := by
        rcases List.any_eq_true.mp ha with ⟨b, hb, hpb⟩
        rcases List.mem_cons.mp hb with hb1 | hb1
        · exact absurd (hb1 ▸ hpb) (by simpa using hpa)
        · exact List.any_eq_true.mpr ⟨b, hb1, hpb⟩
      simp [upsertBy, hpa, ih hc2 ha2]

/-- When at most one element matches, remove-first coincides with
filter-out-every-match. -/
theorem removeFirstBy_eq_filter {α : Type} (p : α → Bool) (l : List α)
    (hc : l.countP p ≤ 1) :
    removeFirstBy p l = l.filter (fun a => !p a) := by
  induction l with
  | nil => rfl
  | cons a tl ih =>
    by_cases hpa : p a = true
    · have h0 : tl.countP p = 0 := by
        rw [List.countP_cons_of_pos p _ hpa] at hc
        omega
      have hall : ∀ b ∈ tl, (!p b) = true := by
        intro b hb
        have := List.countP_eq_zero.mp h0 b hb
        simpa using this
      have hfil := List.filter_eq_self.mpr hall
      simp [removeFirstBy, hpa, hfil]
    · have hc2 : tl.countP p ≤ 1 := by
        rw [List.countP_cons_of_neg p _ (by simpa using hpa)] at hc
        exact hc
      simp [removeFirstBy, hpa, ih hc2]

/-- Replacing every element that carries `getId x` by `x` does not change
the list of ids. -/
theorem map_getId_replace {α : Type} (getId : α → String) (x : α)
    (l : List α) :
    (l.map (fun a => if getId a == getId x then x else a)).map getId
      = l.map getId := by
  induction l with
  | nil => rfl
  | cons a tl ih =>
    by_cases h : (getId a == getId x) = true
    · have he : getId a = getId x := by simpa using h
      simp only [List.map_cons]
      rw [ih]
      simp [h, he]
    · simp only [List.map_cons]
      rw [ih]
      simp [h]

/-- The per-collection bodies of the direct CRUD mutators, parametrized
like `applyOp`: `addX` appends the new record, `updateX` map-replaces every
record carrying the payload id (the mutator compares against its `id`
argument, which is the id merged into the payload), `deleteX` filters out
every record carrying the deleted id. -/
def directOpG {α : Type} (getId : α → String) (asRec : SyncPayload → Option α)
    (l : List α) (t : SyncActionType) (p : SyncPayload) : List α :=
  match t with
  | .add =>
    match asRec p with
    | some x => l ++ [x]
    | none => l
  | .update =>
    match asRec p with
    | some x => l.map (fun a => if getId a == getId x then x else a)
    | none => l
  | .delete =>
    match p with
    | .idOnly id => l.filter (fun a => getId a != id)
    | _ => l

/-- Side conditions of one step of the order-preservation property: an add
introduces a fresh id, an update targets a present id, a delete carries a
bare id payload. -/
def stepOKG {α : Type} (getId : α → String) (asRec : SyncPayload → Option α)
    (l : List α) (t : SyncActionType) (p : SyncPayload) : Bool :=
  match t with
  | .add =>
    match asRec p with
    | some x => !(l.any (fun a => getId a == getId x))
    | none => false
  | .update =>
    match asRec p with
    | some x => l.any (fun a => getId a == getId x)
    | none => false
  | .delete =>
    match p with
    | .idOnly _ => true
    | _ => false

/-- Validity of a queued sequence of a single entity kind `dt`, threading
the evolving collection through the direct semantics. -/
def seqOKG {α : Type} (getId : α → String) (asRec : SyncPayload → Option α)
    (dt : DataType) : List α → List SyncAction → Bool
  | _, [] => true
  | l, a :: q =>
    (a.dataType == dt) && stepOKG getId asRec l a.type a.payload
      && seqOKG getId asRec dt (directOpG getId asRec l a.type a.payload) q

/-- One well-conditioned step: the replay body agrees with the direct
mutator body, and distinctness of ids is preserved. -/
theorem replay_step_eq_direct {α : Type} (getId : α → String)
    (asRec : SyncPayload → Option α)
    (hpid : ∀ p x, asRec p = some x → SyncPayload.pid p = getId x)
    (l : List α) (t : SyncActionType) (p : SyncPayload)
    (hnd : (l.map getId).Nodup) (hok : stepOKG getId asRec l t p = true) :
    applyOp getId asRec t p l = directOpG getId asRec l t p
    ∧ ((directOpG getId asRec l t p).map getId).Nodup := by
  cases t with
  | add =>
    cases hrec : asRec p with
    | none => simp [stepOKG, hrec] at hok
    | some x =>
      have hany : l.any (fun a => getId a == getId x) = false := by
        simpa [stepOKG, hrec] using hok
      have hfresh : getId x ∉ l.map getId := by
        intro hmem
        rcases List.mem_map.mp hmem with ⟨b, hb, hgb⟩
        exact absurd (by simp [hgb]) (List.any_eq_false.mp hany b hb)
      constructor
      · simp [applyOp, directOpG, hrec]
      · have hnd2 : ((l.map getId) ++ [getId x]).Nodup := by
          rw [List.nodup_append_comm]
          rw [List.singleton_append, List.nodup_cons]
          exact ⟨hfresh, hnd⟩
        simpa [directOpG, hrec] using hnd2
  | update =>
    cases hrec : asRec p with
    | none => simp [stepOKG, hrec] at hok
    | some x =>
      have hany : l.any (fun a => getId a == getId x) = true := by
        simpa [stepOKG, hrec] using hok
      have hcount := countP_id_le_one getId l hnd (getId x)
      have hup := applyOp_update_eq getId asRec p x l hrec
      have hpx : SyncPayload.pid p = getId x := hpid p x hrec
      rw [hpx] at hup
      constructor
      · rw [hup, upsertBy_eq_map _ x l hcount hany]
        simp [directOpG, hrec]
      · simp only [directOpG, hrec]
        rw [map_getId_replace getId x l]
        exact hnd
  | delete =>
    cases p with
    | idOnly id =>
      have hcount := countP_id_le_one getId l hnd id
      have hdel := applyOp_delete_eq getId asRec (SyncPayload.idOnly id) l
      simp only [SyncPayload.pid] at hdel
      constructor
      · rw [hdel, removeFirstBy_eq_filter _ l hcount]
        simp only [directOpG]
        exact List.filter_congr (fun a _ => rfl)
      · simp only [directOpG]
        exact List.Nodup.sublist ((List.filter_sublist l).map getId) hnd
    | inc x => simp [stepOKG] at hok
    | exp x => simp [stepOKG] at hok
    | seg x => simp [stepOKG] at hok

/-- Replaying a well-conditioned single-kind sequence equals applying the
direct mutator semantics, from any collection with distinct ids. -/
theorem replay_eq_direct_G {α : Type} (getId : α → String)
    (asRec : SyncPayload → Option α)
    (hpid : ∀ p x, asRec p = some x → SyncPayload.pid p = getId x)
    (dt : DataType) :
    ∀ (q : List SyncAction) (l : List α),
    (l.map getId).Nodup → seqOKG getId asRec dt l q = true →
    q.foldl (fun acc a => applyOp getId asRec a.type a.payload acc) l
      = q.foldl (fun acc a => directOpG getId asRec acc a.type a.payload) l := by
  intro q
  induction q with
  | nil => intro l _ _; rfl
  | cons a q ih =>
    intro l hnd hok
    simp only [seqOKG, Bool.and_eq_true] at hok
    obtain ⟨⟨_, hstep⟩, hrest⟩ := hok
    obtain ⟨heq, hnd2⟩ := replay_step_eq_direct getId asRec hpid l a.type a.payload hnd hstep
    simp only [List.foldl_cons]
    rw [heq]
    exact ih (directOpG getId asRec l a.type a.payload) hnd2 hrest

/-- A well-conditioned sequence of kind `dt` consists of actions whose
dataType is `dt`. -/
theorem seqOKG_dataTypes {α : Type} (getId : α → String)
    (asRec : SyncPayload → Option α) (dt : DataType) :
    ∀ (q : List SyncAction) (l : List α),
    seqOKG getId asRec dt l q = true → ∀ a ∈ q, a.dataType = dt := by
  intro q
  induction q with
  | nil => intro l _ a ha; simp at ha
  | cons b q ih =>
    intro l hok a ha
    simp only [seqOKG, Bool.and_eq_true] at hok
    obtain ⟨⟨hdt, _⟩, hrest⟩ := hok
    rcases List.mem_cons.mp ha with h1 | h1
    · rw [h1]; simpa using hdt
    · exact ih _ hrest a h1

/-- A queue of income-kind actions only touches the incomes collection,
through the replay body. -/
theorem processQueue_income_actions (q : List SyncAction) :
    ∀ d : AppData, (∀ a ∈ q, a.dataType = DataType.income) →
    processQueue d q
      = { d with incomes :=
            q.foldl (fun acc a => applyOp Income.id asIncome a.type a.payload acc) d.incomes } := by
  induction q with
  | nil => intro d _; rfl
  | cons a q ih =>
    intro d h
    have ha : a.dataType = DataType.income := h a (by simp)
    have hstep : applyAction d a
        = { d with incomes := applyOp Income.id asIncome a.type a.payload d.incomes } := by
      unfold applyAction
      rw [ha]
    show processQueue (applyAction d a) q = _
    rw [hstep, ih _ (fun b hb => h b (by simp [hb]))]
    simp [List.foldl_cons]

/-- A queue of expense-kind actions only touches the expenses collection. -/
theorem processQueue_expense_actions (q : List SyncAction) :
    ∀ d : AppData, (∀ a ∈ q, a.dataType = DataType.expense) →
    processQueue d q
      = { d with expenses :=
            q.foldl (fun acc a => applyOp Expense.id asExpense a.type a.payload acc) d.expenses } := by
  induction q with
  | nil => intro d _; rfl
  | cons a q ih =>
    intro d h
    have ha : a.dataType = DataType.expense := h a (by simp)
    have hstep : applyAction d a
        = { d with expenses := applyOp Expense.id asExpense a.type a.payload d.expenses } := by
      unfold applyAction
      rw [ha]
    show processQueue (applyAction d a) q = _
    rw [hstep, ih _ (fun b hb => h b (by simp [hb]))]
    simp [List.foldl_cons]

/-- A queue of segment-kind actions only touches the segments collection. -/
theorem processQueue_segment_actions (q : List SyncAction) :
    ∀ d : AppData, (∀ a ∈ q, a.dataType = DataType.segment) →
    processQueue d q
      = { d with segments :=
            q.foldl (fun acc a => applyOp Segment.id asSegment a.type a.payload acc) d.segments } := by
  induction q with
  | nil => intro d _; rfl
  | cons a q ih =>
    intro d h
    have ha : a.dataType = DataType.segment := h a (by simp)
    have hstep : applyAction d a
        = { d with segments := applyOp Segment.id asSegment a.type a.payload d.segments } := by
      unfold applyAction
      rw [ha]
    show processQueue (applyAction d a) q = _
    rw [hstep, ih _ (fun b hb => h b (by simp [hb]))]
    simp [List.foldl_cons]

/-- Direct-mutator semantics of one queued income action on the incomes
collection alone (the updateFn bodies of addIncome/updateIncome/deleteIncome). -/
def directApplyIncome (l : List Income) (a : SyncAction) : List Income :=
  directOpG Income.id asIncome l a.type a.payload

/-- Direct-mutator semantics of one queued expense action. -/
def directApplyExpense (l : List Expense) (a : SyncAction) : List Expense :=
  directOpG Expense.id asExpense l a.type a.payload

/-- Direct-mutator semantics of one queued segment action. -/
def directApplySegment (l : List Segment) (a : SyncAction) : List Segment :=
  directOpG Segment.id asSegment l a.type a.payload

/-- An income payload id is the id of the record it downcasts to. -/
theorem pid_asIncome (p : SyncPayload) (x : Income) (h : asIncome p = some x) :
    SyncPayload.pid p = x.id := by
  cases p <;> simp [asIncome] at h
  simp [SyncPayload.pid, h]

/-- An expense payload id is the id of the record it downcasts to. -/
theorem pid_asExpense (p : SyncPayload) (x : Expense) (h : asExpense p = some x) :
    SyncPayload.pid p = x.id := by
  cases p <;> simp [asExpense] at h
  simp [SyncPayload.pid, h]

/-- A segment payload id is the id of the record it downcasts to. -/
theorem pid_asSegment (p : SyncPayload) (x : Segment) (h : asSegment p = some x) :
    SyncPayload.pid p = x.id := by
  cases p <;> simp [asSegment] at h
  simp [SyncPayload.pid, h]

/-- C3 (amended): for a queued sequence of actions of a single entity kind
that is well-conditioned for replay from the empty snapshot — every action
is of that kind with a well-shaped payload, every `add` introduces an id
not currently present and every `update` targets an id currently present —
replaying the sequence in order against the empty snapshot yields exactly
the final collection produced by applying the same operations in order with
the direct CRUD mutator semantics (add appends, update map-replaces by id,
delete filters by id).  Without those conditions replay and direct
application can diverge (see the counterexample: an update of a missing
record appends on replay but is a no-op directly). -/
theorem claim3_order_preservation (q : List SyncAction) :
    (seqOKG Income.id asIncome DataType.income [] q = true →
      (processQueue emptyAppData q).incomes = q.foldl directApplyIncome [])
    ∧ (seqOKG Expense.id asExpense DataType.expense [] q = true →
      (processQueue emptyAppData q).expenses = q.foldl directApplyExpense [])
    ∧ (seqOKG Segment.id asSegment DataType.segment [] q = true →
      (processQueue emptyAppData q).segments = q.foldl directApplySegment []) := by
  refine ⟨fun h => ?_, fun h => ?_, fun h => ?_⟩
  · rw [processQueue_income_actions q emptyAppData
      (seqOKG_dataTypes Income.id asIncome DataType.income q [] h)]
    exact replay_eq_direct_G Income.id asIncome pid_asIncome DataType.income
      q [] (by simp) h
  · rw [processQueue_expense_actions q emptyAppData
      (seqOKG_dataTypes Expense.id asExpense DataType.expense q [] h)]
    exact replay_eq_direct_G Expense.id asExpense pid_asExpense DataType.expense
      q [] (by simp) h
  · rw [processQueue_segment_actions q emptyAppData
      (seqOKG_dataTypes Segment.id asSegment DataType.segment q [] h)]
    exact replay_eq_direct_G Segment.id asSegment pid_asSegment DataType.segment
      q [] (by simp) h

/-- A queue holding a single orphan `update` for an income that the empty
snapshot does not contain. -/
def orphanUpdateQueue : List SyncAction :=
  [⟨"9", .update, .income, .inc sampleIncome⟩]

/-- C3 counterexample: replaying a single queued `update` of a missing
income against the empty snapshot appends the record (update-of-missing is
an implicit add on the replay path), while applying the same operation
directly to the empty collection with the updateIncome mutator semantics is
a no-op — the two final collections differ. -/
theorem claim3_counterexample :
    (processQueue emptyAppData orphanUpdateQueue).incomes = [sampleIncome]
    ∧ orphanUpdateQueue.foldl directApplyIncome [] = []
    ∧ (processQueue emptyAppData orphanUpdateQueue).incomes
        ≠ orphanUpdateQueue.foldl directApplyIncome [] := by
  refine ⟨rfl, rfl, by decide⟩

/-- C3 witness: a one-add income sequence is well-conditioned and replay
agrees with the direct semantics on it. -/
theorem claim3_order_preservation_witness :
    (processQueue emptyAppData [⟨"9", .add, .income, .inc sampleIncome⟩]).incomes
      = [(⟨"9", .add, .income, .inc sampleIncome⟩ : SyncAction)].foldl directApplyIncome [] :=
  (claim3_order_preservation [⟨"9", .add, .income, .inc sampleIncome⟩]).1 (by decide)

end ExpenseTracker
